import Mathlib

/-!
Verification development for the `_betse` batch sweep generator and
dispatcher (`src/batch/view.py`) and the worker-side phase runner
(`src/runner.py`).

The Python code mutates nested dictionaries that are shared by reference:
`dict.copy()` copies only the top-level key table, so the nested section
dictionaries of the copy are the very same objects as the baseline's.
We therefore embed configuration documents with an explicit heap:

* a `Doc` is the top-level mapping, taking section names to heap addresses;
* the `Heap` stores the section dictionaries themselves;
* a section (`Sec`) maps leaf names to values or to further addresses.

Numbers are embedded as rationals (the Python code only multiplies and
divides scalars, so this is exact).  Fallible operations (missing key,
dangling address) return `Option`, mirroring Python `KeyError`.

The `asyncio.gather` fan-out in `handle_apply` / `handle_block_change`
starts its per-multiplier coroutines in creation order; each coroutine
runs synchronously up to its remote call.  The embedding serialises the
coroutines in that creation order and records, at each remote call
(`self.g_utils.utils.aget(...)`), a snapshot of the intervention section
as the dispatched variation.
-/

/-- A Python scalar leaf value: number (rational), string, bool or `None`. -/
inductive Val where
  | num (q : ℚ)
  | str (s : String)
  | bool (b : Bool)
  | null
deriving DecidableEq, Repr

/-- A slot of a section dictionary: either a scalar leaf or a reference to a
nested dictionary stored at a heap address. -/
inductive Node where
  | val (v : Val)
  | ref (a : Nat)
deriving DecidableEq, Repr

/-- A section dictionary: insertion-ordered association list from names to nodes. -/
abbrev Sec := List (String × Node)

/-- The heap of section dictionaries; an address is an index into this list. -/
abbrev Heap := List Sec

/-- The top-level configuration mapping: section name to heap address. -/
abbrev Doc := List (String × Nat)

/-- Dictionary read on a section (`sec[name]`), Python `KeyError` as `none`. -/
def secGet : Sec → String → Option Node
  | [], _ => none
  | (n', v) :: rest, n => if n' = n then some v else secGet rest n

/-- Dictionary write on a section (`sec[name] = v`): replaces an existing
entry in place, otherwise appends (Python insertion order). -/
def secSet : Sec → String → Node → Sec
  | [], n, v => [(n, v)]
  | (n', v') :: rest, n, v =>
    if n' = n then (n, v) :: rest else (n', v') :: secSet rest n v

/-- Top-level read: address of a named section (`content[key]`). -/
def docGet : Doc → String → Option Nat
  | [], _ => none
  | (k', a) :: rest, k => if k' = k then some a else docGet rest k

/-- Heap read at an address. -/
def heapGet : Heap → Nat → Option Sec
  | [], _ => none
  | s :: _, 0 => some s
  | _ :: rest, n + 1 => heapGet rest n

/-- Heap write at an address (no-op out of range; all uses are guarded by a
preceding successful `heapGet`). -/
def heapSet : Heap → Nat → Sec → Heap
  | [], _, _ => []
  | _ :: rest, 0, s => s :: rest
  | x :: rest, n + 1, s => x :: heapSet rest n s

/-- Embedding of `content[key][name] = v` given the section address: Python item assignment
through a shared reference. -/
def writeLeaf (h : Heap) (a : Nat) (n : String) (v : Val) : Option Heap := do
  let s ← heapGet h a
  pure (heapSet h a (secSet s n (Node.val v)))

/-- Read `content[key][name]` as a scalar. -/
def readLeaf (h : Heap) (a : Nat) (n : String) : Option Val := do
  let s ← heapGet h a
  match secGet s n with
  | some (Node.val v) => some v
  | _ => none

/-- Read `content[key][name]` as a number. -/
def readNum (h : Heap) (a : Nat) (n : String) : Option ℚ :=
  match readLeaf h a n with
  | some (Val.num q) => some q
  | _ => none

/-- Rational multiplication, spelled through `mkRat` so that concrete runs
of the embedding evaluate inside the kernel (`Rat.mul` itself does not
reduce there); `ratMul_eq_mul` identifies it with `*`. -/
def ratMul (a b : ℚ) : ℚ := mkRat (a.num * b.num) (a.den * b.den)

/-- Rational division, spelled through `Rat.divInt` for the same reason;
`ratDiv_eq_div` identifies it with `/`. -/
def ratDiv (a b : ℚ) : ℚ := Rat.divInt (a.num * b.den) (a.den * b.num)

/-- The operation `ratMul` is ordinary rational multiplication. -/
theorem ratMul_eq_mul (a b : ℚ) : ratMul a b = a * b := by
  rw [Rat.mul_def, Rat.normalize_eq_mkRat]; rfl

/-- The operation `ratDiv` is ordinary rational division. -/
theorem ratDiv_eq_div (a b : ℚ) : ratDiv a b = a / b := (Rat.div_def' a b).symm

/-- Embedding of `content[key][name] *= m`: read-modify-write of a numeric leaf. -/
def mulLeaf (h : Heap) (a : Nat) (n : String) (m : ℚ) : Option Heap := do
  let q ← readNum h a n
  writeLeaf h a n (Val.num (ratMul q m))

/-- Read `content[k][n]` through the top-level mapping. -/
def readPath (h : Heap) (d : Doc) (k n : String) : Option Val := do
  let a ← docGet d k
  readLeaf h a n

/-- Is `p` a prefix of `s` (character lists)? -/
def listPrefixOf : List Char → List Char → Bool
  | [], _ => true
  | _ :: _, [] => false
  | a :: as, b :: bs => a = b && listPrefixOf as bs

/-- Python `s.startswith(p)`, computed on the character lists so that concrete
runs evaluate in the kernel. -/
def strStartsWith (s p : String) : Bool := listPrefixOf p.data s.data

/-- Python `s.endswith(p)`, computed on the character lists. -/
def strEndsWith (s p : String) : Bool :=
  listPrefixOf p.data.reverse s.data.reverse

/-- Python `dict.copy()` on the top-level mapping: a new key table with the
same entries; the nested section dictionaries stay at the same heap
addresses (shallow copy). -/
def dict_copy (d : Doc) : Doc := d

/-- Python `int(q)` on a float: truncation toward zero. -/
def pyInt (q : ℚ) : ℤ := q.num.tdiv q.den

/-! ### Class constants of `BatchSimView` (src/batch/view.py) -/

/-- The class constant `BatchSimView.spacial_functions`. -/
def spacial_functions : List String :=
  ["gradient_x", "gradient_y", "gradient_r", "None", "f_sweep",
   "gradient_bitmap", "single_cell", "periodic"]

/-- The class constant `BatchSimView.gradient_multipliers`. -/
def gradient_multipliers : List ℚ := [mkRat 1 2, 1, mkRat 3 2, 2]

/-- The class constant `BatchSimView.multiplier_steps`. -/
def multiplier_steps : List ℚ :=
  [0, mkRat 1 4, mkRat 1 2, mkRat 3 4, 1, mkRat 5 4, mkRat 3 2, mkRat 7 4, 2]

/-- The class constant `BatchSimView.len_sim`. -/
def len_sim : ℚ := 100

/-- The class constant `BatchSimView.current_phase`. -/
def current_phase : String := "single"

/-- The class constant `BatchSimView.all_ion_profiles`. -/
def all_ion_profiles : List String :=
  ["basic", "basic_Ca", "mammal", "amphibian", "custom"]

/-- The keys routed to the spatial expander inside `handle_block_change`. -/
def memKeys : List String :=
  ["change Ca mem", "change Cl mem", "change K mem", "change Na mem"]

/-! ### `set_event_base` -/

/-- Embedding of `BatchSimView.set_event_base(content, key, len_sim)`: writes the four
event-window leaves of `content[key]` in place and returns the same
`content` object. -/
def set_event_base (h : Heap) (content : Doc) (key : String) (L : ℚ) :
    Option (Heap × Doc) := do
  let a ← docGet content key
  let h ← writeLeaf h a "event happens" (Val.bool true)
  let h ← writeLeaf h a "change start" (Val.num 0)
  let h ← writeLeaf h a "change finish" (Val.num L)
  let h ← writeLeaf h a "change rate" (Val.num (ratDiv L 10))
  pure (h, content)

/-! ### The spatial expander `run_sim_for_spacial_func` -/

/-- One remote dispatch (`await self.g_utils.utils.aget(...)`): the spatial
function active at that point (if inside the expander) and a snapshot of
the intervention section at dispatch time. -/
structure Dispatch where
  func : Option String
  snap : Sec
deriving DecidableEq, Repr

/-- Resolve `content["modulator function properties"][func]` to the address
of the function's parameter dictionary. -/
def modPropsAddr (h : Heap) (d : Doc) (func : String) : Option Nat := do
  let b ← docGet d "modulator function properties"
  let sb ← heapGet h b
  match secGet sb func with
  | some (Node.ref c) => some c
  | _ => none

/-- The `for modul_multi in self.gradient_multipliers` loop of the
gradient-family branch: multiplies slope, x-offset (twice, as in the
source), and exponent, then dispatches once per iteration. -/
def gradLoop (d : Doc) (func : String) (a : Nat) :
    List ℚ → Heap → Option (Heap × List Dispatch)
  | [], h => some (h, [])
  | mm :: rest, h => do
    let c ← modPropsAddr h d func
    let h ← mulLeaf h c "slope" mm
    let h ← mulLeaf h c "x-offset" mm
    let h ← mulLeaf h c "x-offset" mm
    let h ← mulLeaf h c "exponent" mm
    let snap ← heapGet h a
    let (h, tr) ← gradLoop d func a rest h
    pure (h, { func := some func, snap := snap } :: tr)

/-- The `periodic` branch: multiplies the frequency per secondary
multiplier but performs no remote dispatch. -/
def periodicLoop (d : Doc) (func : String) :
    List ℚ → Heap → Option Heap
  | [], h => some h
  | mm :: rest, h => do
    let c ← modPropsAddr h d func
    let h ← mulLeaf h c "frequency" mm
    periodicLoop d func rest h

/-- The `f_sweep` branch: multiplies start and end frequency, dispatching
once per secondary multiplier. -/
def fSweepLoop (d : Doc) (func : String) (a : Nat) :
    List ℚ → Heap → Option (Heap × List Dispatch)
  | [], h => some (h, [])
  | mm :: rest, h => do
    let c ← modPropsAddr h d func
    let h ← mulLeaf h c "start frequency" mm
    let h ← mulLeaf h c "end frequency" mm
    let snap ← heapGet h a
    let (h, tr) ← fSweepLoop d func a rest h
    pure (h, { func := some func, snap := snap } :: tr)

/-- The `gradient_bitmap` branch: one dispatch per walked file path ending
in `.png`, after pointing the `file` leaf at that path. -/
def bitmapLoop (d : Doc) (func : String) (a : Nat) :
    List String → Heap → Option (Heap × List Dispatch)
  | [], h => some (h, [])
  | f :: rest, h =>
    if strEndsWith f ".png" then do
      let c ← modPropsAddr h d func
      let h ← writeLeaf h c "file" (Val.str f)
      let snap ← heapGet h a
      let (h, tr) ← bitmapLoop d func a rest h
      pure (h, { func := some func, snap := snap } :: tr)
    else bitmapLoop d func a rest h

/-- One iteration of the `for func in self.spacial_functions` loop: sets
`content[key]["modulator function"] = func`, then runs the branch matching
`func` (in source order; `"None"` matches no branch). -/
def spacialStep (d : Doc) (key : String) (gm : List ℚ) (files : List String)
    (func : String) (h : Heap) : Option (Heap × List Dispatch) := do
  let a ← docGet d key
  let h ← writeLeaf h a "modulator function" (Val.str func)
  if func = "gradient_x" ∨ func = "gradient_y" ∨ func = "gradient_r" then
    gradLoop d func a gm h
  else if func = "periodic" then do
    let h ← periodicLoop d func gm h
    pure (h, [])
  else if func = "f_sweep" then
    fSweepLoop d func a gm h
  else if func = "gradient_bitmap" then
    bitmapLoop d func a files h
  else if func = "single_cell" then do
    let snap ← heapGet h a
    pure (h, [{ func := some func, snap := snap }])
  else pure (h, [])

/-- Embedding of `BatchSimView.run_sim_for_spacial_func(content, key)`: iterates the
spatial function list, accumulating the heap effects and the dispatch
trace.  `gm` is `self.gradient_multipliers` and `files` the paths walked
under `DEFAULT_BETSE_GEOP`. -/
def run_sim_for_spacial_func (d : Doc) (key : String) (gm : List ℚ)
    (files : List String) :
    List String → Heap → Option (Heap × List Dispatch)
  | [], h => some (h, [])
  | func :: rest, h => do
    let (h, tr) ← spacialStep d key gm files func h
    let (h, tr') ← run_sim_for_spacial_func d key gm files rest h
    pure (h, tr ++ tr')

/-! ### `handle_block_change` -/

/-- The `change` / `block` mutation branch of `handle_block_change`'s
`run_sim` body: `change` keys multiply the shared `multiplier` leaf and
the four membrane keys additionally spatially expand; `block gap
junctions` multiplies `random fraction`. -/
def blockChangeBranch (sc : Heap × Doc) (key : String) (m : ℚ) (gm : List ℚ)
    (files : List String) (a : Nat) : Option (Heap × List Dispatch) :=
  if strStartsWith key "change" then do
    let h ← mulLeaf sc.1 a "multiplier" m
    if key ∈ memKeys then
      run_sim_for_spacial_func sc.2 key gm files spacial_functions h
    else pure (h, ([] : List Dispatch))
  else if strStartsWith key "block" then
    (if key = "block gap junctions" then mulLeaf sc.1 a "random fraction" m
      else pure sc.1) >>= fun h => pure (h, ([] : List Dispatch))
  else pure (sc.1, ([] : List Dispatch))

/-- The body of one `run_sim(multiplier, key, len_sim)` coroutine of
`handle_block_change`, run up to and including its terminal remote call:
`set_event_base` on a shallow copy of the baseline, the mutation branch
(`blockChangeBranch`), and the unconditional trailing dispatch. -/
def runSimBlockChange (base : Doc) (key : String) (L m : ℚ) (gm : List ℚ)
    (files : List String) (h0 : Heap) : Option (Heap × List Dispatch) := do
  let sc ← set_event_base h0 (dict_copy base) key L
  let a ← docGet sc.2 key
  let pr ← blockChangeBranch sc key m gm files a
  let snap ← heapGet pr.1 a
  pure (pr.1, pr.2 ++ [{ func := none, snap := snap }])

/-- Embedding of `BatchSimView.handle_block_change(multiplier_steps, key, len_sim)`:
the `asyncio.gather` fan-out, serialised in coroutine creation order. -/
def handle_block_change (base : Doc) (key : String) (L : ℚ) (gm : List ℚ)
    (files : List String) :
    List ℚ → Heap → Option (Heap × List Dispatch)
  | [], h => some (h, [])
  | m :: ms, h => do
    let (h, tr) ← runSimBlockChange base key L m gm files h
    let (h, tr') ← handle_block_change base key L gm files ms h
    pure (h, tr ++ tr')

/-! ### `handle_apply` -/

/-- The boundary list of the `apply external voltage` branch. -/
def boundaries : List String := ["top", "bottom", "left", "right"]

/-- The `negative_boundary` if-chain (initialised to `None`). -/
def negBoundaryVal (b : String) : Val :=
  if b = "top" then Val.str "bottom"
  else if b = "bottom" then Val.str "top"
  else if b = "left" then Val.str "right"
  else if b = "right" then Val.str "left"
  else Val.null

/-- The `for boundary in [...]` loop of the `apply external voltage`
branch: writes both boundary leaves, then dispatches. -/
def voltageLoop (a : Nat) :
    List String → Heap → Option (Heap × List Dispatch)
  | [], h => some (h, [])
  | b :: rest, h => do
    let h ← writeLeaf h a "positive voltage boundary" (Val.str b)
    let h ← writeLeaf h a "negative voltage boundary" (negBoundaryVal b)
    let snap ← heapGet h a
    let (h, tr) ← voltageLoop a rest h
    pure (h, { func := none, snap := snap } :: tr)

/-- The body of one `run_sim(multiplier, key, len_sim)` coroutine of
`handle_apply`. -/
def runSimApply (base : Doc) (key : String) (L m : ℚ) (gm : List ℚ)
    (files : List String) (h0 : Heap) : Option (Heap × List Dispatch) := do
  let sc ← set_event_base h0 (dict_copy base) key L
  if key = "apply external voltage" then do
    let a ← docGet sc.2 key
    let h ← mulLeaf sc.1 a "peak voltage" m
    voltageLoop a boundaries h
  else if key = "apply pressure" then do
    let a ← docGet sc.2 key
    let h ← mulLeaf sc.1 a "multiplier" m
    run_sim_for_spacial_func sc.2 key gm files spacial_functions h
  else if key = "break ecm junctions" then do
    let a ← docGet sc.2 key
    let v ← readNum sc.1 a "multiplier"
    let h ← writeLeaf sc.1 a "multiplier"
      (Val.num (if pyInt v ≠ 0 then ratMul v m else ratMul 1 m))
    pure (h, ([] : List Dispatch))
  else pure (sc.1, ([] : List Dispatch))

/-- Embedding of `BatchSimView.handle_apply(multiplier_steps, key, len_sim)`: the
`asyncio.gather` fan-out, serialised in coroutine creation order. -/
def handle_apply (base : Doc) (key : String) (L : ℚ) (gm : List ℚ)
    (files : List String) :
    List ℚ → Heap → Option (Heap × List Dispatch)
  | [], h => some (h, [])
  | m :: ms, h => do
    let (h, tr) ← runSimApply base key L m gm files h
    let (h, tr') ← handle_apply base key L gm files ms h
    pure (h, tr ++ tr')

/-! ### The `all_variations` router -/

/-- Which handler `all_variations` invokes for a top-level section. -/
inductive Route where
  | blockChange
  | applyH
  | ignored
deriving DecidableEq, Repr

/-- The if-chain of `BatchSimView.all_variations` for one top-level key:
`change`/`break`/`block` prefixes go to `handle_block_change` when the
current phase is `"single"`; an `apply` prefix, and the literal key
`"modulator function properties"`, go to `handle_apply`. -/
def all_variations_route (phase : String) (key : String) : Route :=
  if strStartsWith key "change" ∨ strStartsWith key "break" ∨ strStartsWith key "block" then
    (if phase = "single" then Route.blockChange else Route.ignored)
  else if strStartsWith key "apply" then Route.applyH
  else if key = "modulator function properties" then Route.applyH
  else Route.ignored

/-- Embedding of `BatchSimView.all_variations(content)`: the handler chosen for every
top-level key of the document, in iteration order. -/
def all_variations (phase : String) (keys : List String) : List (String × Route) :=
  keys.map (fun k => (k, all_variations_route phase k))

/-! ### The `asyncio.gather` dispatch model -/

/-- The result of one `run_sim` coroutine: normal completion or a raised
exception (e.g. a failed remote call). -/
inductive TaskResult (α : Type) where
  | ok (a : α)
  | exn (e : String)

/-- What an `await asyncio.gather(...)` expression produces. -/
inductive GatherResult (α : Type) where
  | done (results : List α)
  | raisedExn (e : String)
deriving DecidableEq, Repr

/-- Python `asyncio.gather` without `return_exceptions`: if every task completes,
the list of results in task order; if any task raises, the whole gather
raises that exception and no sibling result is delivered (and the
enclosing `asyncio.run` then cancels still-pending tasks on teardown). -/
def asyncio_gather {α : Type} : List (TaskResult α) → GatherResult α
  | [] => GatherResult.done []
  | TaskResult.ok a :: rest =>
    match asyncio_gather rest with
    | GatherResult.done l => GatherResult.done (a :: l)
    | GatherResult.raisedExn e => GatherResult.raisedExn e
  | TaskResult.exn e :: _ => GatherResult.raisedExn e

/-- The outcomes the caller of the gather actually receives: all of them on
full success, none when the gather raises. -/
def reported {α : Type} : GatherResult α → List α
  | GatherResult.done l => l
  | GatherResult.raisedExn _ => []

/-- The `await asyncio.gather(*[run_sim(multiplier, key, len_sim) for
multiplier in multiplier_steps])` line, with `remote` giving each
coroutine's result.  A `run_sim` coroutine returns `None` (here `Unit`)
and carries no variation identifier. -/
def gather_run_sims (remote : ℚ → TaskResult Unit) (ms : List ℚ) :
    GatherResult Unit :=
  asyncio_gather (ms.map remote)

/-! ### The worker-side runner `BetseRunner.run_batch` (src/runner.py) -/

/-- The class constant `BetseRunner.phases`. -/
def runner_phases : List String := ["seed", "init", "sim", "plot init", "plot sim"]

/-- The exception kinds caught around `subprocess.run`. -/
inductive ExnKind where
  | fileNotFound
  | timeoutExpired
  | osError (s : String)
  | otherExn (s : String)
deriving DecidableEq, Repr

/-- What one `subprocess.run(["betse", *phase, config])` invocation does. -/
inductive ExecOut where
  | exited (code : ℤ) (out err : String)
  | raised (e : ExnKind)

/-- The `details` string each exception handler records. -/
def exnDetails : ExnKind → String
  | ExnKind.fileNotFound => "BETSE FileNotFoundError"
  | ExnKind.timeoutExpired => "BETSE simulation timed out. 120s"
  | ExnKind.osError s => "OSError running BETSE." ++ s
  | ExnKind.otherExn s => "An unexpected Exception occurred." ++ s

/-- One entry of `phase_stats`. -/
structure PhaseStat where
  status : String
  details : String
deriving DecidableEq, Repr

/-- Embedding of `BetseRunner.run_batch`, with `exec` giving each phase's subprocess
outcome.  Returns the recorded `phase_stats` (in insertion order) together
with the list of phases actually attempted.  A nonzero exit code records a
failure and returns immediately; a raised exception records a failure and
falls through to the next phase (the handlers do not return). -/
def run_batch (exec : String → ExecOut) :
    List String → List (String × PhaseStat) × List String
  | [] => ([], [])
  | p :: rest =>
    match exec p with
    | ExecOut.exited code out err =>
      if code ≠ 0 then
        ([(p, { status := "failed", details := "(" ++ out.trim ++ ", " ++ err.trim ++ ")" })], [p])
      else
        let (stats, att) := run_batch exec rest
        ((p, { status := "success", details := out.trim }) :: stats, p :: att)
    | ExecOut.raised e =>
      let (stats, att) := run_batch exec rest
      ((p, { status := "failed", details := exnDetails e }) :: stats, p :: att)

/-! ### The `post` entry point (src/batch/view.py, `BatchSimView.post`) -/

/-- An error raised while `post` executes. -/
inductive PyError where
  | valueError (msg : String)
  | keyError (k : String)
  | attributeError (msg : String)
deriving DecidableEq, Repr

/-- Is this a `ValueError` from tuple unpacking? -/
def isUnpackError : Option PyError → Bool
  | some (PyError.valueError _) => true
  | _ => false

/-- Destructuring `k, v = s` where `s` is a string: a length-2 string
unpacks into its two one-character substrings, anything else raises
`ValueError`. -/
def unpack2 (s : String) : Except PyError (String × String) :=
  match s.data with
  | [a, b] => Except.ok (String.singleton a, String.singleton b)
  | _ => Except.error (PyError.valueError "cannot unpack")

/-- A sweep the body of `post` hands to `all_variations` (projection of the
generated variations; only reached when a key unpacks and matches a
branch). -/
inductive PostEvent where
  | sweepInvoked (sec : String)
deriving DecidableEq, Repr

/-- The body of the `for k, v in content["general options"]` loop for an
unpacked key `k` (a one-character string): the `comp grid size` branch
sweeps 8 grid sizes, the `ion profile` branch sweeps each profile, the
`customized ion profile` branch sweeps every top-level item times every
multiplier. -/
def post_general_body (d : Doc) (k : String) : List PostEvent :=
  if k = "comp grid size" then
    List.replicate 8 (PostEvent.sweepInvoked "comp grid size")
  else if k = "ion profile" then
    all_ion_profiles.map (fun _ => PostEvent.sweepInvoked "ion profile")
  else if k = "customized ion profile" then
    d.flatMap (fun _ =>
      multiplier_steps.map (fun _ => PostEvent.sweepInvoked "customized ion profile"))
  else []

/-- The `for k, v in content["general options"]` loop: iterating a dict
yields its keys; each key is tuple-unpacked, so the loop raises on the
first key that is not a length-2 sequence. -/
def post_general_loop (d : Doc) :
    List String → List PostEvent × Option PyError
  | [] => ([], none)
  | s :: rest =>
    match unpack2 s with
    | Except.error e => ([], some e)
    | Except.ok (k, _) =>
      let evs := post_general_body d k
      let (evs', err) := post_general_loop d rest
      (evs ++ evs', err)

/-- The keys tested by the `world options` loop body. -/
def world_keys : List String :=
  ["world size", "cell radius", "cell height", "cell spacing",
   "lattice disorder", "alpha shape"]

/-- The `for multiplier in self.multiplier_steps` loop of the world-options
branch: `world_options_multiply_content["world_options"][k] *= multiplier`
(note the underscored key, absent from the space-keyed document). -/
def world_mul_loop (h : Heap) (d : Doc) (k : String) :
    List ℚ → Option PyError
  | [] => none
  | _ :: rest =>
    match docGet d "world_options" with
    | none => some (PyError.keyError "world_options")
    | some a =>
      match readNum h a k with
      | none => some (PyError.keyError k)
      | some _ => world_mul_loop h d k rest

/-- The `for k, v in content["world options"]` loop: same key-unpacking
semantics; an unpacked one-character key matches no branch, and
`simulate single cell` triggers an early `return` from `post`. -/
def post_world_loop (h : Heap) (d : Doc) :
    List String → Option PyError × Bool
  | [] => (none, false)
  | s :: rest =>
    match unpack2 s with
    | Except.error e => (some e, false)
    | Except.ok (k, _) =>
      if k ∈ world_keys then
        match world_mul_loop h d k multiplier_steps with
        | some e => (some e, false)
        | none => post_world_loop h d rest
      else if k = "simulate single cell" then (none, true)
      else post_world_loop h d rest

/-- Embedding of `BatchSimView.post(request)`: the two key-unpacking loops over
`general options` and `world options`, then the multiply-all loop.  That
last loop calls `change_all_vals` (an `async def`) without awaiting it and
passes the resulting coroutine object to `all_variations`, whose
`content.items()` call raises `AttributeError` on the first iteration.
Returns the sweep events generated before the first error, and the error
(or `none` after the early `return` of `simulate single cell`). -/
def post (h : Heap) (d : Doc) : List PostEvent × Option PyError :=
  match docGet d "general options" with
  | none => ([], some (PyError.keyError "general options"))
  | some a =>
    match heapGet h a with
    | none => ([], some (PyError.keyError "general options"))
    | some gsec =>
      let (evs, err) := post_general_loop d (gsec.map (fun p => p.1))
      match err with
      | some e => (evs, some e)
      | none =>
        match docGet d "world options" with
        | none => (evs, some (PyError.keyError "world options"))
        | some b =>
          match heapGet h b with
          | none => (evs, some (PyError.keyError "world options"))
          | some wsec =>
            match post_world_loop h d (wsec.map (fun p => p.1)) with
            | (some e, _) => (evs, some e)
            | (none, true) => (evs, none)
            | (none, false) =>
              (evs, some (PyError.attributeError
                "coroutine object has no attribute items"))

/-! ### Concrete baselines used by the evaluation theorems -/

/-- A baseline with one targeted intervention section, `change Na env`,
whose `multiplier` leaf is 10. -/
def c1Doc : Doc := [("change Na env", 0)]

/-- Heap of `c1Doc`. -/
def c1Heap : Heap := [[("multiplier", Node.val (Val.num 10))]]

/-- The full `handle_block_change` sweep over `c1Doc` with the configured
multiplier set. -/
def c1Res : Option (Heap × List Dispatch) :=
  handle_block_change c1Doc "change Na env" len_sim gradient_multipliers []
    multiplier_steps c1Heap

/-- The dispatched variation snapshots of `c1Res`. -/
def c1Trace : List Dispatch := ((c1Res.map (fun p => p.2)).getD [])

/-- C1: the multiplier law fails on the code.  Each `run_sim` coroutine
multiplies the `multiplier` leaf of the section dictionary that all
coroutines (and the baseline) share, so the scaling is cumulative: with
baseline value 10 and configured multipliers `[0, 1/4, ...]`, every
dispatched variation carries `multiplier = 0` (the first factor is 0),
while the claim requires the variation for `m = 1/4` to carry
`10 * (1/4) = 5/2`. -/
theorem C1_multiplier_cumulative_eval :
    (c1Trace.map (fun dsp => secGet dsp.snap "multiplier")) =
      List.replicate 9 (some (Node.val (Val.num 0))) ∧
    multiplier_steps.get? 1 = some (mkRat 1 4) ∧
    ¬ ((c1Trace.map (fun dsp => secGet dsp.snap "multiplier")).get? 1 =
        some (some (Node.val (Val.num (ratMul 10 (mkRat 1 4)))))) := by
  refine ⟨by decide, by decide, by decide⟩

/-- A baseline with one targeted intervention section, `change Na env`,
whose `multiplier` leaf is 7. -/
def c2Doc : Doc := [("change Na env", 0)]

/-- Heap of `c2Doc`. -/
def c2Heap : Heap := [[("multiplier", Node.val (Val.num 7))]]

/-- The heap after a single variation (`m = 2`) of the sweep has run. -/
def c2HeapAfter : Heap :=
  (((handle_block_change c2Doc "change Na env" len_sim gradient_multipliers []
      [2] c2Heap).map (fun p => p.1)).getD [])

/-- C2: non-aliasing fails on the code.  The variation materialises its
document as `DEFAULT_BETSE_CONTENT.copy()`, a shallow copy sharing every
section dictionary with the baseline; after the variation multiplies its
`multiplier` leaf by 2, reading the same path through the untouched
baseline document yields 14, not the original 7 (and the variation's
event-window writes are likewise visible in the baseline). -/
theorem C2_shallow_copy_aliasing_eval :
    readPath c2Heap c2Doc "change Na env" "multiplier" = some (Val.num 7) ∧
    readPath c2HeapAfter c2Doc "change Na env" "multiplier" = some (Val.num 14) ∧
    readPath c2HeapAfter c2Doc "change Na env" "event happens" =
      some (Val.bool true) := by
  refine ⟨by decide, by decide, by decide⟩

/-- A remote-call oracle under which the coroutine for multiplier 0 raises
and every sibling completes normally. -/
def c3Remote : ℚ → TaskResult Unit :=
  fun m => if m = 0 then TaskResult.exn "ConnectionError" else TaskResult.ok ()

/-- C3: failure isolation fails on the code.  `handle_block_change` awaits
a plain `asyncio.gather`, so one coroutine's exception makes the whole
gather raise: although the other 8 coroutines of the configured multiplier
set complete normally, the caller receives no sibling outcome at all. -/
theorem C3_gather_loses_sibling_outcomes :
    gather_run_sims c3Remote multiplier_steps =
      GatherResult.raisedExn "ConnectionError" ∧
    reported (gather_run_sims c3Remote multiplier_steps) = [] ∧
    (multiplier_steps.filter (fun m => decide (m ≠ 0))).length = 8 := by
  refine ⟨by decide, by decide, by decide⟩

/-- A remote-call oracle for a two-request dispatch in which the second
request fails. -/
def c4Remote : ℚ → TaskResult Unit :=
  fun m => if m = 0 then TaskResult.ok () else TaskResult.exn "Timeout"

/-- The two dispatched requests of the C4 scenario. -/
def c4Requests : List ℚ := [0, mkRat 1 4]

/-- C4: dispatch completeness fails on the code.  For 2 dispatched requests
of which one fails, the gather raises and the caller receives 0 outcomes,
not 2; no outcome carries a variation identifier (each `run_sim` returns
`None`, and even on full success the gather's result list is discarded). -/
theorem C4_gather_incomplete_outcomes :
    (reported (gather_run_sims c4Remote c4Requests)).length = 0 ∧
    c4Requests.length = 2 ∧
    ¬ ((reported (gather_run_sims c4Remote c4Requests)).length =
        c4Requests.length) := by
  refine ⟨by decide, by decide, by decide⟩

/-- An execution oracle under which every `betse` subprocess raises
`FileNotFoundError` (the executable is absent). -/
def c7Exec : String → ExecOut := fun _ => ExecOut.raised ExnKind.fileNotFound

/-- C7: the runner does not stop after an exception-path failure.  With the
`betse` executable absent, the `seed` phase is recorded as failed, yet
`init`, `sim`, `plot init` and `plot sim` are all still attempted: the
exception handlers of `run_batch` record the failure but do not return,
unlike the nonzero-exit branch. -/
theorem C7_exception_failure_continues_eval :
    (run_batch c7Exec runner_phases).2 = runner_phases ∧
    (run_batch c7Exec runner_phases).1.map (fun p => (p.1, p.2.status)) =
      runner_phases.map (fun p => (p, "failed")) ∧
    "init" ∈ (run_batch c7Exec runner_phases).2 := by
  refine ⟨by decide, by decide, by decide⟩

/-! ### Concrete spatial-expansion fixture -/

/-- A baseline with an `apply pressure` intervention and a modulator
properties section referencing one parameter dictionary per function. -/
def c5Doc : Doc := [("apply pressure", 0), ("modulator function properties", 1)]

/-- Heap of `c5Doc`: address 0 the intervention, address 1 the modulator
properties table, addresses 2-7 the per-function parameter dictionaries. -/
def c5Heap : Heap :=
  [[("multiplier", Node.val (Val.num 2))],
   [("gradient_x", Node.ref 2), ("gradient_y", Node.ref 3),
    ("gradient_r", Node.ref 4), ("f_sweep", Node.ref 5),
    ("gradient_bitmap", Node.ref 6), ("periodic", Node.ref 7)],
   [("slope", Node.val (Val.num 1)), ("x-offset", Node.val (Val.num 1)),
    ("exponent", Node.val (Val.num 1))],
   [("slope", Node.val (Val.num 1)), ("x-offset", Node.val (Val.num 1)),
    ("exponent", Node.val (Val.num 1))],
   [("slope", Node.val (Val.num 1)), ("x-offset", Node.val (Val.num 1)),
    ("exponent", Node.val (Val.num 1))],
   [("start frequency", Node.val (Val.num 1)),
    ("end frequency", Node.val (Val.num 2))],
   [],
   [("frequency", Node.val (Val.num 10))]]

/-- The files walked under the bitmap asset directory: two `.png` assets
and one other file. -/
def c5Files : List String := ["geo/a.png", "geo/b.txt", "geo/c.png"]

/-- One full spatial expansion over the fixture. -/
def c5Spacial : Option (Heap × List Dispatch) :=
  run_sim_for_spacial_func c5Doc "apply pressure" gradient_multipliers c5Files
    spacial_functions c5Heap

/-- The dispatch trace of `c5Spacial`. -/
def c5SpacialTrace : List Dispatch := ((c5Spacial.map (fun p => p.2)).getD [])

/-- C5 counterexample: the claim attributes `S` child runs to `periodic`,
but the `periodic` branch of `run_sim_for_spacial_func` only multiplies
the frequency parameter and never issues a remote call: on a concrete
expansion with secondary set of size `S = 4`, the number of dispatches
tagged `periodic` is 0, not 4 (the `S` dispatches the total does contain
come from the `f_sweep` branch instead). -/
theorem C5_periodic_dispatch_counterexample :
    (c5SpacialTrace.filter (fun dsp => dsp.func = some "periodic")).length = 0 ∧
    gradient_multipliers.length = 4 ∧
    ¬ ((c5SpacialTrace.filter (fun dsp => dsp.func = some "periodic")).length =
        gradient_multipliers.length) ∧
    (c5SpacialTrace.filter (fun dsp => dsp.func = some "f_sweep")).length =
      gradient_multipliers.length := by
  refine ⟨by decide, by decide, by decide, by decide⟩

/-- C6 counterexample: `all_variations` does route the reserved section
`"modulator function properties"` to a sweep handler: its `elif` chain
sends that key to `handle_apply` with the full multiplier set, exactly as
it does for `apply`-prefixed intervention sections, contradicting "never
independently swept by the generator". -/
theorem C6_modprops_routed_counterexample :
    all_variations current_phase ["modulator function properties"] =
      [("modulator function properties", Route.applyH)] ∧
    ¬ (all_variations_route current_phase "modulator function properties" =
        Route.ignored) := by
  refine ⟨by decide, by decide⟩

/-! ### Basic dictionary and heap lemmas -/

/-- Monadic bind on `none`, in the form produced by do-notation. -/
theorem optNoneBind {α β : Type} (f : α → Option β) :
    ((none : Option α) >>= f) = none := rfl

/-- Monadic bind on `some`, in the form produced by do-notation. -/
theorem optSomeBind {α β : Type} (a : α) (f : α → Option β) :
    ((some a : Option α) >>= f) = f a := rfl

/-- Reading back the name just written. -/
theorem secGet_secSet_self (s : Sec) (n : String) (v : Node) :
    secGet (secSet s n v) n = some v := by
  induction s with
  | nil => simp [secSet, secGet]
  | cons p rest ih =>
    obtain ⟨m, w⟩ := p
    by_cases h : m = n
    · simp [secSet, secGet, h]
    · simp [secSet, secGet, h, ih]

/-- Writing one name leaves every other name unchanged. -/
theorem secGet_secSet_ne (s : Sec) (n n' : String) (v : Node) (hne : n' ≠ n) :
    secGet (secSet s n v) n' = secGet s n' := by
  induction s with
  | nil =>
    simp only [secSet, secGet]
    rw [if_neg (fun e => hne e.symm)]
  | cons p rest ih =>
    obtain ⟨m, w⟩ := p
    by_cases h : m = n
    · subst h
      simp only [secSet, if_pos rfl, secGet]
      rw [if_neg (fun e => hne e.symm), if_neg (fun e => hne e.symm)]
    · simp only [secSet, if_neg h, secGet]
      by_cases hm : m = n'
      · rw [if_pos hm, if_pos hm]
      · rw [if_neg hm, if_neg hm, ih]

/-- Reading back the address just written. -/
theorem heapGet_heapSet_self (h : Heap) (a : Nat) (s₀ s : Sec)
    (hget : heapGet h a = some s₀) :
    heapGet (heapSet h a s) a = some s := by
  induction h generalizing a with
  | nil => simp [heapGet] at hget
  | cons x rest ih =>
    cases a with
    | zero => simp [heapGet, heapSet]
    | succ n =>
      simp only [heapGet, heapSet] at hget ⊢
      exact ih n hget

/-- Writing one address leaves every other address unchanged. -/
theorem heapGet_heapSet_ne (h : Heap) (a b : Nat) (s : Sec) (hne : b ≠ a) :
    heapGet (heapSet h a s) b = heapGet h b := by
  induction h generalizing a b with
  | nil => simp [heapSet]
  | cons x rest ih =>
    cases a with
    | zero =>
      cases b with
      | zero => exact absurd rfl hne
      | succ m => simp [heapGet, heapSet]
    | succ n =>
      cases b with
      | zero => simp [heapGet, heapSet]
      | succ m =>
        simp only [heapGet, heapSet]
        exact ih n m (fun e => hne (by rw [e]))

/-- Inversion for a successful `writeLeaf`. -/
theorem writeLeaf_eq (h : Heap) (a : Nat) (n : String) (v : Val) (h' : Heap)
    (hw : writeLeaf h a n v = some h') :
    ∃ s, heapGet h a = some s ∧ h' = heapSet h a (secSet s n (Node.val v)) := by
  unfold writeLeaf at hw
  cases hg : heapGet h a with
  | none => rw [hg] at hw; simp at hw
  | some s =>
    rw [hg] at hw
    simp at hw
    exact ⟨s, rfl, hw.symm⟩

/-! ### The event-window invariant -/

/-- The four event-window leaf names written by `set_event_base`. -/
def eventNames : List String :=
  ["event happens", "change start", "change finish", "change rate"]

/-- The event-window policy of the claim: the four leaves of a section hold
exactly the values `set_event_base` derives from the simulation length. -/
def EventOK (s : Sec) (L : ℚ) : Prop :=
  secGet s "event happens" = some (Node.val (Val.bool true)) ∧
  secGet s "change start" = some (Node.val (Val.num 0)) ∧
  secGet s "change finish" = some (Node.val (Val.num L)) ∧
  secGet s "change rate" = some (Node.val (Val.num (ratDiv L 10)))

/-- The section stored at address `a` satisfies the event-window policy. -/
def EventOKAt (h : Heap) (a : Nat) (L : ℚ) : Prop :=
  ∃ s, heapGet h a = some s ∧ EventOK s L

/-- A write to any name other than the four event leaves preserves the
policy on a section. -/
theorem eventOK_secSet (s : Sec) (L : ℚ) (n : String) (v : Node)
    (hn : n ∉ eventNames) (hs : EventOK s L) : EventOK (secSet s n v) L := by
  simp only [eventNames, List.mem_cons, List.not_mem_nil, or_false, not_or] at hn
  obtain ⟨h1, h2, h3, h4⟩ := hn
  obtain ⟨e1, e2, e3, e4⟩ := hs
  exact ⟨by rw [secGet_secSet_ne _ _ _ _ (fun e => h1 e.symm)]; exact e1,
         by rw [secGet_secSet_ne _ _ _ _ (fun e => h2 e.symm)]; exact e2,
         by rw [secGet_secSet_ne _ _ _ _ (fun e => h3 e.symm)]; exact e3,
         by rw [secGet_secSet_ne _ _ _ _ (fun e => h4 e.symm)]; exact e4⟩

/-- A `writeLeaf` to a non-event name anywhere in the heap preserves the
policy at any address. -/
theorem eventOKAt_writeLeaf (h h' : Heap) (a b : Nat) (n : String) (v : Val)
    (L : ℚ) (hn : n ∉ eventNames) (hw : writeLeaf h b n v = some h')
    (hok : EventOKAt h a L) : EventOKAt h' a L := by
  obtain ⟨sb, hgb, rfl⟩ := writeLeaf_eq _ _ _ _ _ hw
  obtain ⟨s, hga, hok⟩ := hok
  by_cases hab : a = b
  · subst hab
    rw [hga] at hgb
    injection hgb with e
    subst e
    exact ⟨_, heapGet_heapSet_self _ _ _ _ hga, eventOK_secSet _ _ _ _ hn hok⟩
  · exact ⟨s, by rw [heapGet_heapSet_ne _ _ _ _ hab]; exact hga, hok⟩

/-- A `mulLeaf` of a non-event name preserves the policy. -/
theorem eventOKAt_mulLeaf (h h' : Heap) (a b : Nat) (n : String) (m : ℚ)
    (L : ℚ) (hn : n ∉ eventNames) (hw : mulLeaf h b n m = some h')
    (hok : EventOKAt h a L) : EventOKAt h' a L := by
  unfold mulLeaf at hw
  cases hr : readNum h b n with
  | none => rw [hr, optNoneBind] at hw; exact Option.noConfusion hw
  | some q =>
    rw [hr, optSomeBind] at hw
    exact eventOKAt_writeLeaf _ _ _ _ _ _ _ hn hw hok

/-- Inversion of a successful monadic bind over `Option`. -/
theorem optBind_eq_some {α β : Type} {o : Option α} {f : α → Option β} {b : β}
    (h : (o >>= f) = some b) : ∃ a, o = some a ∧ f a = some b := by
  cases o with
  | none => exact Option.noConfusion h
  | some a => exact ⟨a, rfl, h⟩

/-- The four event-window writes of `set_event_base`, applied to any
section, leave it satisfying the event-window policy. -/
theorem eventOK_nested (s : Sec) (L : ℚ) :
    EventOK
      (secSet (secSet (secSet (secSet s "event happens" (Node.val (Val.bool true)))
        "change start" (Node.val (Val.num 0))) "change finish" (Node.val (Val.num L)))
        "change rate" (Node.val (Val.num (ratDiv L 10)))) L := by
  refine ⟨?_, ?_, ?_, ?_⟩
  · rw [secGet_secSet_ne _ _ _ _ (by decide), secGet_secSet_ne _ _ _ _ (by decide),
        secGet_secSet_ne _ _ _ _ (by decide), secGet_secSet_self]
  · rw [secGet_secSet_ne _ _ _ _ (by decide), secGet_secSet_ne _ _ _ _ (by decide),
        secGet_secSet_self]
  · rw [secGet_secSet_ne _ _ _ _ (by decide), secGet_secSet_self]
  · rw [secGet_secSet_self]

/-- A successful `set_event_base` returns the very document it was given
and establishes the event-window policy at the section it targeted. -/
theorem set_event_base_estab (h h' : Heap) (d d' : Doc) (key : String) (L : ℚ)
    (hrun : set_event_base h d key L = some (h', d')) :
    d' = d ∧ ∃ a, docGet d key = some a ∧ EventOKAt h' a L := by
  unfold set_event_base at hrun
  cases ha : docGet d key with
  | none => rw [ha, optNoneBind] at hrun; exact Option.noConfusion hrun
  | some a =>
    rw [ha, optSomeBind] at hrun
    obtain ⟨h1, hw1, hrun⟩ := optBind_eq_some hrun
    obtain ⟨h2, hw2, hrun⟩ := optBind_eq_some hrun
    obtain ⟨h3, hw3, hrun⟩ := optBind_eq_some hrun
    obtain ⟨h4, hw4, hrun⟩ := optBind_eq_some hrun
    have heq : some (h4, d) = some (h', d') := hrun
    injection heq with e
    injection e with e1 e2
    subst e1
    subst e2
    obtain ⟨s0, hg0, rfl⟩ := writeLeaf_eq _ _ _ _ _ hw1
    obtain ⟨s1, hg1, rfl⟩ := writeLeaf_eq _ _ _ _ _ hw2
    obtain ⟨s2, hg2, rfl⟩ := writeLeaf_eq _ _ _ _ _ hw3
    obtain ⟨s3, hg3, rfl⟩ := writeLeaf_eq _ _ _ _ _ hw4
    have hA := heapGet_heapSet_self h a s0
      (secSet s0 "event happens" (Node.val (Val.bool true))) hg0
    rw [hA] at hg1
    obtain rfl := Option.some.inj hg1
    have hB := heapGet_heapSet_self _ a _
      (secSet (secSet s0 "event happens" (Node.val (Val.bool true)))
        "change start" (Node.val (Val.num 0))) hA
    rw [hB] at hg2
    obtain rfl := Option.some.inj hg2
    have hC := heapGet_heapSet_self _ a _
      (secSet (secSet (secSet s0 "event happens" (Node.val (Val.bool true)))
        "change start" (Node.val (Val.num 0)))
        "change finish" (Node.val (Val.num L))) hB
    rw [hC] at hg3
    obtain rfl := Option.some.inj hg3
    have hD := heapGet_heapSet_self _ a _
      (secSet (secSet (secSet (secSet s0 "event happens" (Node.val (Val.bool true)))
        "change start" (Node.val (Val.num 0)))
        "change finish" (Node.val (Val.num L)))
        "change rate" (Node.val (Val.num (ratDiv L 10)))) hC
    exact ⟨rfl, a, rfl, _, hD, eventOK_nested s0 L⟩

/-- The gradient-family loop preserves the event-window policy and every
snapshot it dispatches satisfies it. -/
theorem gradLoop_ok (d : Doc) (func : String) (a : Nat) (L : ℚ) :
    ∀ (gm : List ℚ) (h h' : Heap) (tr : List Dispatch),
      gradLoop d func a gm h = some (h', tr) → EventOKAt h a L →
      EventOKAt h' a L ∧ ∀ dsp ∈ tr, EventOK dsp.snap L := by
  intro gm
  induction gm with
  | nil =>
    intro h h' tr hrun hok
    have heq : some (h, ([] : List Dispatch)) = some (h', tr) := hrun
    injection heq with e
    injection e with e1 e2
    subst e1
    subst e2
    exact ⟨hok, by simp⟩
  | cons mm rest ih =>
    intro h h' tr hrun hok
    simp only [gradLoop] at hrun
    obtain ⟨c, hc, hrun⟩ := optBind_eq_some hrun
    obtain ⟨h1, hm1, hrun⟩ := optBind_eq_some hrun
    obtain ⟨h2, hm2, hrun⟩ := optBind_eq_some hrun
    obtain ⟨h3, hm3, hrun⟩ := optBind_eq_some hrun
    obtain ⟨h4, hm4, hrun⟩ := optBind_eq_some hrun
    obtain ⟨snap, hsnap, hrun⟩ := optBind_eq_some hrun
    obtain ⟨⟨h5, tr5⟩, hrec, hrun⟩ := optBind_eq_some hrun
    have heq : some (h5, ({ func := some func, snap := snap } : Dispatch) :: tr5) =
        some (h', tr) := hrun
    injection heq with e
    injection e with e1 e2
    subst e1
    subst e2
    have hok1 := eventOKAt_mulLeaf _ _ a _ _ _ L (by decide) hm1 hok
    have hok2 := eventOKAt_mulLeaf _ _ a _ _ _ L (by decide) hm2 hok1
    have hok3 := eventOKAt_mulLeaf _ _ a _ _ _ L (by decide) hm3 hok2
    have hok4 := eventOKAt_mulLeaf _ _ a _ _ _ L (by decide) hm4 hok3
    obtain ⟨hok5, htr5⟩ := ih h4 h5 tr5 hrec hok4
    refine ⟨hok5, ?_⟩
    intro dsp hd
    rcases List.mem_cons.mp hd with rfl | hd
    · obtain ⟨s, hgs, he⟩ := hok4
      rw [hgs] at hsnap
      obtain rfl := Option.some.inj hsnap
      exact he
    · exact htr5 dsp hd

/-- The `periodic` loop preserves the event-window policy. -/
theorem periodicLoop_ok (d : Doc) (func : String) (a : Nat) (L : ℚ) :
    ∀ (gm : List ℚ) (h h' : Heap),
      periodicLoop d func gm h = some h' → EventOKAt h a L →
      EventOKAt h' a L := by
  intro gm
  induction gm with
  | nil =>
    intro h h' hrun hok
    have heq : some h = some h' := hrun
    obtain rfl := Option.some.inj heq
    exact hok
  | cons mm rest ih =>
    intro h h' hrun hok
    simp only [periodicLoop] at hrun
    obtain ⟨c, hc, hrun⟩ := optBind_eq_some hrun
    obtain ⟨h1, hm1, hrun⟩ := optBind_eq_some hrun
    exact ih h1 h' hrun (eventOKAt_mulLeaf _ _ a _ _ _ L (by decide) hm1 hok)

/-- The `f_sweep` loop preserves the event-window policy and every snapshot
it dispatches satisfies it. -/
theorem fSweepLoop_ok (d : Doc) (func : String) (a : Nat) (L : ℚ) :
    ∀ (gm : List ℚ) (h h' : Heap) (tr : List Dispatch),
      fSweepLoop d func a gm h = some (h', tr) → EventOKAt h a L →
      EventOKAt h' a L ∧ ∀ dsp ∈ tr, EventOK dsp.snap L := by
  intro gm
  induction gm with
  | nil =>
    intro h h' tr hrun hok
    have heq : some (h, ([] : List Dispatch)) = some (h', tr) := hrun
    injection heq with e
    injection e with e1 e2
    subst e1
    subst e2
    exact ⟨hok, by simp⟩
  | cons mm rest ih =>
    intro h h' tr hrun hok
    simp only [fSweepLoop] at hrun
    obtain ⟨c, hc, hrun⟩ := optBind_eq_some hrun
    obtain ⟨h1, hm1, hrun⟩ := optBind_eq_some hrun
    obtain ⟨h2, hm2, hrun⟩ := optBind_eq_some hrun
    obtain ⟨snap, hsnap, hrun⟩ := optBind_eq_some hrun
    obtain ⟨⟨h3, tr3⟩, hrec, hrun⟩ := optBind_eq_some hrun
    have heq : some (h3, ({ func := some func, snap := snap } : Dispatch) :: tr3) =
        some (h', tr) := hrun
    injection heq with e
    injection e with e1 e2
    subst e1
    subst e2
    have hok1 := eventOKAt_mulLeaf _ _ a _ _ _ L (by decide) hm1 hok
    have hok2 := eventOKAt_mulLeaf _ _ a _ _ _ L (by decide) hm2 hok1
    obtain ⟨hok3, htr3⟩ := ih h2 h3 tr3 hrec hok2
    refine ⟨hok3, ?_⟩
    intro dsp hd
    rcases List.mem_cons.mp hd with rfl | hd
    · obtain ⟨s, hgs, he⟩ := hok2
      rw [hgs] at hsnap
      obtain rfl := Option.some.inj hsnap
      exact he
    · exact htr3 dsp hd

/-- The bitmap loop preserves the event-window policy and every snapshot it
dispatches satisfies it. -/
theorem bitmapLoop_ok (d : Doc) (func : String) (a : Nat) (L : ℚ) :
    ∀ (files : List String) (h h' : Heap) (tr : List Dispatch),
      bitmapLoop d func a files h = some (h', tr) → EventOKAt h a L →
      EventOKAt h' a L ∧ ∀ dsp ∈ tr, EventOK dsp.snap L := by
  intro files
  induction files with
  | nil =>
    intro h h' tr hrun hok
    have heq : some (h, ([] : List Dispatch)) = some (h', tr) := hrun
    injection heq with e
    injection e with e1 e2
    subst e1
    subst e2
    exact ⟨hok, by simp⟩
  | cons f rest ih =>
    intro h h' tr hrun hok
    simp only [bitmapLoop] at hrun
    by_cases hf : strEndsWith f ".png" = true
    · rw [if_pos hf] at hrun
      obtain ⟨c, hc, hrun⟩ := optBind_eq_some hrun
      obtain ⟨h1, hw1, hrun⟩ := optBind_eq_some hrun
      obtain ⟨snap, hsnap, hrun⟩ := optBind_eq_some hrun
      obtain ⟨⟨h2, tr2⟩, hrec, hrun⟩ := optBind_eq_some hrun
      have heq : some (h2, ({ func := some func, snap := snap } : Dispatch) :: tr2) =
          some (h', tr) := hrun
      injection heq with e
      injection e with e1 e2
      subst e1
      subst e2
      have hok1 := eventOKAt_writeLeaf _ _ a _ _ _ L (by decide) hw1 hok
      obtain ⟨hok2, htr2⟩ := ih h1 h2 tr2 hrec hok1
      refine ⟨hok2, ?_⟩
      intro dsp hd
      rcases List.mem_cons.mp hd with rfl | hd
      · obtain ⟨s, hgs, he⟩ := hok1
        rw [hgs] at hsnap
        obtain rfl := Option.some.inj hsnap
        exact he
      · exact htr2 dsp hd
    · rw [if_neg hf] at hrun
      exact ih h h' tr hrun hok

/-- The boundary loop of `apply external voltage` preserves the policy and
every snapshot it dispatches satisfies it. -/
theorem voltageLoop_ok (a : Nat) (L : ℚ) :
    ∀ (bs : List String) (h h' : Heap) (tr : List Dispatch),
      voltageLoop a bs h = some (h', tr) → EventOKAt h a L →
      EventOKAt h' a L ∧ ∀ dsp ∈ tr, EventOK dsp.snap L := by
  intro bs
  induction bs with
  | nil =>
    intro h h' tr hrun hok
    have heq : some (h, ([] : List Dispatch)) = some (h', tr) := hrun
    injection heq with e
    injection e with e1 e2
    subst e1
    subst e2
    exact ⟨hok, by simp⟩
  | cons b rest ih =>
    intro h h' tr hrun hok
    simp only [voltageLoop] at hrun
    obtain ⟨h1, hw1, hrun⟩ := optBind_eq_some hrun
    obtain ⟨h2, hw2, hrun⟩ := optBind_eq_some hrun
    obtain ⟨snap, hsnap, hrun⟩ := optBind_eq_some hrun
    obtain ⟨⟨h3, tr3⟩, hrec, hrun⟩ := optBind_eq_some hrun
    have heq : some (h3, ({ func := none, snap := snap } : Dispatch) :: tr3) =
        some (h', tr) := hrun
    injection heq with e
    injection e with e1 e2
    subst e1
    subst e2
    have hok1 := eventOKAt_writeLeaf _ _ a _ _ _ L (by decide) hw1 hok
    have hok2 := eventOKAt_writeLeaf _ _ a _ _ _ L (by decide) hw2 hok1
    obtain ⟨hok3, htr3⟩ := ih h2 h3 tr3 hrec hok2
    refine ⟨hok3, ?_⟩
    intro dsp hd
    rcases List.mem_cons.mp hd with rfl | hd
    · obtain ⟨s, hgs, he⟩ := hok2
      rw [hgs] at hsnap
      obtain rfl := Option.some.inj hsnap
      exact he
    · exact htr3 dsp hd

/-- One spatial-function iteration preserves the event-window policy and
every snapshot it dispatches satisfies it. -/
theorem spacialStep_ok (d : Doc) (key : String) (gm : List ℚ)
    (files : List String) (func : String) (L : ℚ) (a : Nat)
    (h h' : Heap) (tr : List Dispatch)
    (ha : docGet d key = some a)
    (hrun : spacialStep d key gm files func h = some (h', tr))
    (hok : EventOKAt h a L) :
    EventOKAt h' a L ∧ ∀ dsp ∈ tr, EventOK dsp.snap L := by
  unfold spacialStep at hrun
  rw [ha, optSomeBind] at hrun
  obtain ⟨h1, hw1, hrun⟩ := optBind_eq_some hrun
  have hok1 : EventOKAt h1 a L :=
    eventOKAt_writeLeaf _ _ a _ _ _ L (by decide) hw1 hok
  split at hrun
  · exact gradLoop_ok d func a L gm h1 h' tr hrun hok1
  · split at hrun
    · obtain ⟨h2, hp, hrun⟩ := optBind_eq_some hrun
      have heq : some (h2, ([] : List Dispatch)) = some (h', tr) := hrun
      injection heq with e
      injection e with e1 e2
      subst e1
      subst e2
      exact ⟨periodicLoop_ok d func a L gm h1 h2 hp hok1, by simp⟩
    · split at hrun
      · exact fSweepLoop_ok d func a L gm h1 h' tr hrun hok1
      · split at hrun
        · exact bitmapLoop_ok d func a L files h1 h' tr hrun hok1
        · split at hrun
          · obtain ⟨snap, hsnap, hrun⟩ := optBind_eq_some hrun
            have heq : some (h1, [({ func := some func, snap := snap } : Dispatch)]) =
                some (h', tr) := hrun
            injection heq with e
            injection e with e1 e2
            subst e1
            subst e2
            refine ⟨hok1, ?_⟩
            intro dsp hd
            rcases List.mem_cons.mp hd with rfl | hd
            · obtain ⟨s, hgs, he⟩ := hok1
              rw [hgs] at hsnap
              obtain rfl := Option.some.inj hsnap
              exact he
            · cases hd
          · have heq : some (h1, ([] : List Dispatch)) = some (h', tr) := hrun
            injection heq with e
            injection e with e1 e2
            subst e1
            subst e2
            exact ⟨hok1, by simp⟩

/-- The whole spatial expansion preserves the event-window policy and every
snapshot it dispatches satisfies it. -/
theorem run_sim_for_spacial_func_ok (d : Doc) (key : String) (gm : List ℚ)
    (files : List String) (L : ℚ) (a : Nat) (ha : docGet d key = some a) :
    ∀ (fs : List String) (h h' : Heap) (tr : List Dispatch),
      run_sim_for_spacial_func d key gm files fs h = some (h', tr) →
      EventOKAt h a L →
      EventOKAt h' a L ∧ ∀ dsp ∈ tr, EventOK dsp.snap L := by
  intro fs
  induction fs with
  | nil =>
    intro h h' tr hrun hok
    have heq : some (h, ([] : List Dispatch)) = some (h', tr) := hrun
    injection heq with e
    injection e with e1 e2
    subst e1
    subst e2
    exact ⟨hok, by simp⟩
  | cons func rest ih =>
    intro h h' tr hrun hok
    simp only [run_sim_for_spacial_func] at hrun
    obtain ⟨⟨h1, tr1⟩, hstep, hrun⟩ := optBind_eq_some hrun
    obtain ⟨⟨h2, tr2⟩, hrec, hrun⟩ := optBind_eq_some hrun
    have heq : some (h2, tr1 ++ tr2) = some (h', tr) := hrun
    injection heq with e
    injection e with e1 e2
    subst e1
    subst e2
    obtain ⟨hok1, htr1⟩ := spacialStep_ok d key gm files func L a h h1 tr1 ha hstep hok
    obtain ⟨hok2, htr2⟩ := ih h1 h2 tr2 hrec hok1
    refine ⟨hok2, ?_⟩
    intro dsp hd
    rcases List.mem_append.mp hd with hd | hd
    · exact htr1 dsp hd
    · exact htr2 dsp hd

/-- Successful `set_event_base`, stated on an unsplit result pair. -/
theorem set_event_base_estab2 (h : Heap) (d : Doc) (key : String) (L : ℚ)
    (pr : Heap × Doc) (hrun : set_event_base h d key L = some pr) :
    pr.2 = d ∧ ∃ a, docGet d key = some a ∧ EventOKAt pr.1 a L := by
  obtain ⟨h1, d1⟩ := pr
  exact set_event_base_estab h h1 d d1 key L hrun

/-- Every variation dispatched by one `run_sim` coroutine of
`handle_block_change` carries the event-window leaves set by
`set_event_base`. -/
theorem runSimBlockChange_ok (base : Doc) (key : String) (L m : ℚ)
    (gm : List ℚ) (files : List String) (h h' : Heap) (tr : List Dispatch)
    (hrun : runSimBlockChange base key L m gm files h = some (h', tr)) :
    ∀ dsp ∈ tr, EventOK dsp.snap L := by
  unfold runSimBlockChange at hrun
  obtain ⟨sc, hseb, hrun⟩ := optBind_eq_some hrun
  obtain ⟨hcd, a, ha, hok1⟩ := set_event_base_estab2 _ _ _ _ _ hseb
  have ha2 : docGet sc.2 key = some a := by rw [hcd]; exact ha
  rw [ha2, optSomeBind] at hrun
  obtain ⟨pr, hbr, hrun⟩ := optBind_eq_some hrun
  obtain ⟨snap, hsnap, hrun⟩ := optBind_eq_some hrun
  unfold blockChangeBranch at hbr
  obtain ⟨h2, tr2⟩ := pr
  have heq : some (h2, tr2 ++ [({ func := none, snap := snap } : Dispatch)]) =
      some (h', tr) := hrun
  injection heq with e
  injection e with e1 e2
  subst e1
  subst e2
  have hsnap2 : heapGet h2 a = some snap := hsnap
  have hbranch : EventOKAt h2 a L ∧ ∀ dsp ∈ tr2, EventOK dsp.snap L := by
    split at hbr
    · obtain ⟨h3, hm3, hbr⟩ := optBind_eq_some hbr
      have hok3 := eventOKAt_mulLeaf _ _ a _ _ _ L (by decide) hm3 hok1
      split at hbr
      · exact run_sim_for_spacial_func_ok _ _ _ _ L a ha2 spacial_functions
          h3 h2 tr2 hbr hok3
      · have heq2 : some (h3, ([] : List Dispatch)) = some (h2, tr2) := hbr
        injection heq2 with e
        injection e with e1 e2
        subst e1
        subst e2
        exact ⟨hok3, by simp⟩
    · split at hbr
      · obtain ⟨h3, hif, hbr⟩ := optBind_eq_some hbr
        have hok3 : EventOKAt h3 a L := by
          split at hif
          · exact eventOKAt_mulLeaf _ _ a _ _ _ L (by decide) hif hok1
          · have heq3 : some sc.1 = some h3 := hif
            obtain rfl := Option.some.inj heq3
            exact hok1
        have heq2 : some (h3, ([] : List Dispatch)) = some (h2, tr2) := hbr
        injection heq2 with e
        injection e with e1 e2
        subst e1
        subst e2
        exact ⟨hok3, by simp⟩
      · have heq2 : some (sc.1, ([] : List Dispatch)) = some (h2, tr2) := hbr
        injection heq2 with e
        injection e with e1 e2
        subst e1
        subst e2
        exact ⟨hok1, by simp⟩
  intro dsp hd
  rcases List.mem_append.mp hd with hd | hd
  · exact hbranch.2 dsp hd
  · rcases List.mem_cons.mp hd with rfl | h0
    · obtain ⟨s, hgs, he⟩ := hbranch.1
      rw [hgs] at hsnap2
      obtain rfl := Option.some.inj hsnap2
      exact he
    · cases h0

/-- Every variation dispatched by one `run_sim` coroutine of `handle_apply`
carries the event-window leaves set by `set_event_base`. -/
theorem runSimApply_ok (base : Doc) (key : String) (L m : ℚ)
    (gm : List ℚ) (files : List String) (h h' : Heap) (tr : List Dispatch)
    (hrun : runSimApply base key L m gm files h = some (h', tr)) :
    ∀ dsp ∈ tr, EventOK dsp.snap L := by
  unfold runSimApply at hrun
  obtain ⟨sc, hseb, hrun⟩ := optBind_eq_some hrun
  obtain ⟨hcd, a, ha, hok1⟩ := set_event_base_estab2 _ _ _ _ _ hseb
  have ha2 : docGet sc.2 key = some a := by rw [hcd]; exact ha
  split at hrun
  · rw [ha2, optSomeBind] at hrun
    obtain ⟨h2, hm2, hrun⟩ := optBind_eq_some hrun
    exact (voltageLoop_ok a L boundaries h2 h' tr hrun
      (eventOKAt_mulLeaf _ _ a _ _ _ L (by decide) hm2 hok1)).2
  · split at hrun
    · rw [ha2, optSomeBind] at hrun
      obtain ⟨h2, hm2, hrun⟩ := optBind_eq_some hrun
      exact (run_sim_for_spacial_func_ok _ _ _ _ L a ha2 spacial_functions
        h2 h' tr hrun (eventOKAt_mulLeaf _ _ a _ _ _ L (by decide) hm2 hok1)).2
    · split at hrun
      · rw [ha2, optSomeBind] at hrun
        obtain ⟨v, hv, hrun⟩ := optBind_eq_some hrun
        obtain ⟨h2, hw2, hrun⟩ := optBind_eq_some hrun
        have heq : some (h2, ([] : List Dispatch)) = some (h', tr) := hrun
        injection heq with e
        injection e with e1 e2
        subst e1
        subst e2
        intro dsp hd
        cases hd
      · have heq : some (sc.1, ([] : List Dispatch)) = some (h', tr) := hrun
        injection heq with e
        injection e with e1 e2
        subst e1
        subst e2
        intro dsp hd
        cases hd

/-- Every variation dispatched by a `handle_block_change` sweep carries the
event-window leaves. -/
theorem handle_block_change_ok (base : Doc) (key : String) (L : ℚ)
    (gm : List ℚ) (files : List String) :
    ∀ (ms : List ℚ) (h h' : Heap) (tr : List Dispatch),
      handle_block_change base key L gm files ms h = some (h', tr) →
      ∀ dsp ∈ tr, EventOK dsp.snap L := by
  intro ms
  induction ms with
  | nil =>
    intro h h' tr hrun
    have heq : some (h, ([] : List Dispatch)) = some (h', tr) := hrun
    injection heq with e
    injection e with e1 e2
    subst e1
    subst e2
    intro dsp hd
    cases hd
  | cons m rest ih =>
    intro h h' tr hrun
    simp only [handle_block_change] at hrun
    obtain ⟨⟨h1, tr1⟩, hone, hrun⟩ := optBind_eq_some hrun
    obtain ⟨⟨h2, tr2⟩, hrec, hrun⟩ := optBind_eq_some hrun
    have heq : some (h2, tr1 ++ tr2) = some (h', tr) := hrun
    injection heq with e
    injection e with e1 e2
    subst e1
    subst e2
    intro dsp hd
    rcases List.mem_append.mp hd with hd | hd
    · exact runSimBlockChange_ok base key L m gm files h h1 tr1 hone dsp hd
    · exact ih h1 h2 tr2 hrec dsp hd

/-- Every variation dispatched by a `handle_apply` sweep carries the
event-window leaves. -/
theorem handle_apply_ok (base : Doc) (key : String) (L : ℚ)
    (gm : List ℚ) (files : List String) :
    ∀ (ms : List ℚ) (h h' : Heap) (tr : List Dispatch),
      handle_apply base key L gm files ms h = some (h', tr) →
      ∀ dsp ∈ tr, EventOK dsp.snap L := by
  intro ms
  induction ms with
  | nil =>
    intro h h' tr hrun
    have heq : some (h, ([] : List Dispatch)) = some (h', tr) := hrun
    injection heq with e
    injection e with e1 e2
    subst e1
    subst e2
    intro dsp hd
    cases hd
  | cons m rest ih =>
    intro h h' tr hrun
    simp only [handle_apply] at hrun
    obtain ⟨⟨h1, tr1⟩, hone, hrun⟩ := optBind_eq_some hrun
    obtain ⟨⟨h2, tr2⟩, hrec, hrun⟩ := optBind_eq_some hrun
    have heq : some (h2, tr1 ++ tr2) = some (h', tr) := hrun
    injection heq with e
    injection e with e1 e2
    subst e1
    subst e2
    intro dsp hd
    rcases List.mem_append.mp hd with hd | hd
    · exact runSimApply_ok base key L m gm files h h1 tr1 hone dsp hd
    · exact ih h1 h2 tr2 hrec dsp hd

/-- Claim C8: every variation dispatched for a change/break/block/apply
section by `handle_block_change` or `handle_apply` carries the
event-window leaves `event happens = true`, `change start = 0`,
`change finish = len_sim` and `change rate = len_sim / 10`, where `L` is
the requested simulation length passed to the handler. -/
theorem C8_event_window_policy (base : Doc) (key : String) (L : ℚ)
    (gm : List ℚ) (files : List String) (ms : List ℚ) (h h' : Heap)
    (tr : List Dispatch) :
    (handle_block_change base key L gm files ms h = some (h', tr) →
      ∀ dsp ∈ tr, EventOK dsp.snap L) ∧
    (handle_apply base key L gm files ms h = some (h', tr) →
      ∀ dsp ∈ tr, EventOK dsp.snap L) :=
  ⟨fun hrun => handle_block_change_ok base key L gm files ms h h' tr hrun,
   fun hrun => handle_apply_ok base key L gm files ms h h' tr hrun⟩

/-- A baseline with a `block gap junctions` section for the C8 witness. -/
def c8Doc : Doc := [("block gap junctions", 0)]

/-- Heap of `c8Doc`. -/
def c8Heap : Heap := [[("random fraction", Node.val (Val.num (mkRat 1 2)))]]

/-- A one-multiplier `handle_block_change` sweep over `c8Doc`. -/
def c8Res : Option (Heap × List Dispatch) :=
  handle_block_change c8Doc "block gap junctions" len_sim gradient_multipliers
    [] [2] c8Heap

/-- Final heap of `c8Res`. -/
def c8ResH : Heap := ((c8Res.map (fun p => p.1)).getD [])

/-- Dispatch trace of `c8Res`. -/
def c8ResTr : List Dispatch := ((c8Res.map (fun p => p.2)).getD [])

/-- The single dispatched variation of `c8Res`. -/
def c8Dsp : Dispatch := c8ResTr.headD { func := none, snap := [] }

/-- Witness for C8 at a concrete sweep: the dispatched variation of the
`block gap junctions` sweep satisfies the event-window policy with
`len_sim = 100`. -/
theorem C8_event_window_policy_witness : EventOK c8Dsp.snap 100 :=
  (C8_event_window_policy c8Doc "block gap junctions" 100 gradient_multipliers
    [] [2] c8Heap c8ResH c8ResTr).1 (by decide) c8Dsp (by decide)

/-- One `run_sim` coroutine of `handle_apply` on the reserved section
`"modulator function properties"` matches no `apply` branch and therefore
dispatches nothing. -/
theorem runSimApply_modprops (base : Doc) (L m : ℚ) (gm : List ℚ)
    (files : List String) (h h' : Heap) (tr : List Dispatch)
    (hrun : runSimApply base "modulator function properties" L m gm files h =
      some (h', tr)) : tr = [] := by
  unfold runSimApply at hrun
  obtain ⟨sc, hseb, hrun⟩ := optBind_eq_some hrun
  rw [if_neg (by decide), if_neg (by decide), if_neg (by decide)] at hrun
  have heq : some (sc.1, ([] : List Dispatch)) = some (h', tr) := hrun
  injection heq with e
  injection e with e1 e2
  subst e1
  subst e2
  rfl

/-- C6 (amended): although `all_variations` routes the reserved section
`"modulator function properties"` into the `handle_apply` sweep handler
with the full multiplier set (whose coroutines set the section's
event-window leaves in place), no `apply` branch of `run_sim` matches the
key, so the sweep dispatches no remote run for that section: its dispatch
trace is empty, and the section's function parameters are only otherwise
consumed during the spatial expansion of a targeted intervention. -/
theorem C6_modprops_no_dispatch (base : Doc) (L : ℚ) (gm : List ℚ)
    (files : List String) :
    ∀ (ms : List ℚ) (h h' : Heap) (tr : List Dispatch),
      handle_apply base "modulator function properties" L gm files ms h =
        some (h', tr) → tr = [] := by
  intro ms
  induction ms with
  | nil =>
    intro h h' tr hrun
    have heq : some (h, ([] : List Dispatch)) = some (h', tr) := hrun
    injection heq with e
    injection e with e1 e2
    subst e1
    subst e2
    rfl
  | cons m rest ih =>
    intro h h' tr hrun
    simp only [handle_apply] at hrun
    obtain ⟨⟨h1, tr1⟩, hone, hrun⟩ := optBind_eq_some hrun
    obtain ⟨⟨h2, tr2⟩, hrec, hrun⟩ := optBind_eq_some hrun
    have heq : some (h2, tr1 ++ tr2) = some (h', tr) := hrun
    injection heq with e
    injection e with e1 e2
    subst e1
    subst e2
    rw [runSimApply_modprops base L m gm files h h1 tr1 hone,
        ih h1 h2 tr2 hrec]
    rfl

/-- A baseline whose only section is the reserved modulator section, for
the C6 witness. -/
def c6Doc : Doc := [("modulator function properties", 0)]

/-- Heap of `c6Doc`. -/
def c6Heap : Heap := [[("gradient_x", Node.ref 0)]]

/-- A two-multiplier `handle_apply` sweep over the reserved section. -/
def c6Res : Option (Heap × List Dispatch) :=
  handle_apply c6Doc "modulator function properties" len_sim
    gradient_multipliers [] [0, 2] c6Heap

/-- Final heap of `c6Res`. -/
def c6ResH : Heap := ((c6Res.map (fun p => p.1)).getD [])

/-- Dispatch trace of `c6Res`. -/
def c6ResTr : List Dispatch := ((c6Res.map (fun p => p.2)).getD [])

/-- Witness for the amended C6 at a concrete sweep: the two-multiplier
sweep over the reserved section dispatches nothing. -/
theorem C6_modprops_no_dispatch_witness : c6ResTr = [] :=
  C6_modprops_no_dispatch c6Doc len_sim gradient_multipliers [] [0, 2]
    c6Heap c6ResH c6ResTr (by decide)

/-! ### Dispatch cardinality of the spatial expansion -/

/-- The number of remote dispatches one spatial-function branch of
`run_sim_for_spacial_func` performs, read off the branch structure of the
source: each gradient-family function and `f_sweep` dispatch once per
secondary multiplier, `gradient_bitmap` once per discovered `.png` asset,
`single_cell` exactly once, and `periodic` and `None` never. -/
def expCount (gm : List ℚ) (files : List String) (func : String) : Nat :=
  if func = "gradient_x" ∨ func = "gradient_y" ∨ func = "gradient_r" then
    gm.length
  else if func = "periodic" then 0
  else if func = "f_sweep" then gm.length
  else if func = "gradient_bitmap" then
    (files.filter (fun f => strEndsWith f ".png")).length
  else if func = "single_cell" then 1
  else 0

/-- The gradient loop dispatches once per secondary multiplier. -/
theorem gradLoop_len (d : Doc) (func : String) (a : Nat) :
    ∀ (gm : List ℚ) (h h' : Heap) (tr : List Dispatch),
      gradLoop d func a gm h = some (h', tr) → tr.length = gm.length := by
  intro gm
  induction gm with
  | nil =>
    intro h h' tr hrun
    have heq : some (h, ([] : List Dispatch)) = some (h', tr) := hrun
    injection heq with e
    injection e with e1 e2
    subst e1
    subst e2
    rfl
  | cons mm rest ih =>
    intro h h' tr hrun
    simp only [gradLoop] at hrun
    obtain ⟨c, hc, hrun⟩ := optBind_eq_some hrun
    obtain ⟨h1, hm1, hrun⟩ := optBind_eq_some hrun
    obtain ⟨h2, hm2, hrun⟩ := optBind_eq_some hrun
    obtain ⟨h3, hm3, hrun⟩ := optBind_eq_some hrun
    obtain ⟨h4, hm4, hrun⟩ := optBind_eq_some hrun
    obtain ⟨snap, hsnap, hrun⟩ := optBind_eq_some hrun
    obtain ⟨⟨h5, tr5⟩, hrec, hrun⟩ := optBind_eq_some hrun
    have heq : some (h5, ({ func := some func, snap := snap } : Dispatch) :: tr5) =
        some (h', tr) := hrun
    injection heq with e
    injection e with e1 e2
    subst e1
    subst e2
    simp [ih h4 h5 tr5 hrec]

/-- The `f_sweep` loop dispatches once per secondary multiplier. -/
theorem fSweepLoop_len (d : Doc) (func : String) (a : Nat) :
    ∀ (gm : List ℚ) (h h' : Heap) (tr : List Dispatch),
      fSweepLoop d func a gm h = some (h', tr) → tr.length = gm.length := by
  intro gm
  induction gm with
  | nil =>
    intro h h' tr hrun
    have heq : some (h, ([] : List Dispatch)) = some (h', tr) := hrun
    injection heq with e
    injection e with e1 e2
    subst e1
    subst e2
    rfl
  | cons mm rest ih =>
    intro h h' tr hrun
    simp only [fSweepLoop] at hrun
    obtain ⟨c, hc, hrun⟩ := optBind_eq_some hrun
    obtain ⟨h1, hm1, hrun⟩ := optBind_eq_some hrun
    obtain ⟨h2, hm2, hrun⟩ := optBind_eq_some hrun
    obtain ⟨snap, hsnap, hrun⟩ := optBind_eq_some hrun
    obtain ⟨⟨h3, tr3⟩, hrec, hrun⟩ := optBind_eq_some hrun
    have heq : some (h3, ({ func := some func, snap := snap } : Dispatch) :: tr3) =
        some (h', tr) := hrun
    injection heq with e
    injection e with e1 e2
    subst e1
    subst e2
    simp [ih h2 h3 tr3 hrec]

/-- The bitmap loop dispatches once per walked `.png` path. -/
theorem bitmapLoop_len (d : Doc) (func : String) (a : Nat) :
    ∀ (files : List String) (h h' : Heap) (tr : List Dispatch),
      bitmapLoop d func a files h = some (h', tr) →
      tr.length = (files.filter (fun f => strEndsWith f ".png")).length := by
  intro files
  induction files with
  | nil =>
    intro h h' tr hrun
    have heq : some (h, ([] : List Dispatch)) = some (h', tr) := hrun
    injection heq with e
    injection e with e1 e2
    subst e1
    subst e2
    rfl
  | cons f rest ih =>
    intro h h' tr hrun
    simp only [bitmapLoop] at hrun
    by_cases hf : strEndsWith f ".png" = true
    · rw [if_pos hf] at hrun
      obtain ⟨c, hc, hrun⟩ := optBind_eq_some hrun
      obtain ⟨h1, hw1, hrun⟩ := optBind_eq_some hrun
      obtain ⟨snap, hsnap, hrun⟩ := optBind_eq_some hrun
      obtain ⟨⟨h2, tr2⟩, hrec, hrun⟩ := optBind_eq_some hrun
      have heq : some (h2, ({ func := some func, snap := snap } : Dispatch) :: tr2) =
          some (h', tr) := hrun
      injection heq with e
      injection e with e1 e2
      subst e1
      subst e2
      simp [List.filter_cons, hf, ih h1 h2 tr2 hrec]
    · rw [if_neg hf] at hrun
      have hb : strEndsWith f ".png" = false := by
        cases he : strEndsWith f ".png"
        · rfl
        · exact absurd he hf
      simp [List.filter_cons, hb, ih h h' tr hrun]

/-- One spatial-function iteration dispatches exactly `expCount` runs. -/
theorem spacialStep_len (d : Doc) (key : String) (gm : List ℚ)
    (files : List String) (func : String) (h h' : Heap) (tr : List Dispatch)
    (hrun : spacialStep d key gm files func h = some (h', tr)) :
    tr.length = expCount gm files func := by
  unfold spacialStep at hrun
  obtain ⟨a, ha, hrun⟩ := optBind_eq_some hrun
  obtain ⟨h1, hw1, hrun⟩ := optBind_eq_some hrun
  unfold expCount
  by_cases c1 : func = "gradient_x" ∨ func = "gradient_y" ∨ func = "gradient_r"
  · rw [if_pos c1] at hrun
    rw [if_pos c1]
    exact gradLoop_len d func a gm h1 h' tr hrun
  · rw [if_neg c1] at hrun
    rw [if_neg c1]
    by_cases c2 : func = "periodic"
    · rw [if_pos c2] at hrun
      rw [if_pos c2]
      obtain ⟨h2, hp, hrun⟩ := optBind_eq_some hrun
      have heq : some (h2, ([] : List Dispatch)) = some (h', tr) := hrun
      injection heq with e
      injection e with e1 e2
      subst e1
      subst e2
      rfl
    · rw [if_neg c2] at hrun
      rw [if_neg c2]
      by_cases c3 : func = "f_sweep"
      · rw [if_pos c3] at hrun
        rw [if_pos c3]
        exact fSweepLoop_len d func a gm h1 h' tr hrun
      · rw [if_neg c3] at hrun
        rw [if_neg c3]
        by_cases c4 : func = "gradient_bitmap"
        · rw [if_pos c4] at hrun
          rw [if_pos c4]
          exact bitmapLoop_len d func a files h1 h' tr hrun
        · rw [if_neg c4] at hrun
          rw [if_neg c4]
          by_cases c5 : func = "single_cell"
          · rw [if_pos c5] at hrun
            rw [if_pos c5]
            obtain ⟨snap, hsnap, hrun⟩ := optBind_eq_some hrun
            have heq : some (h1, [({ func := some func, snap := snap } : Dispatch)]) =
                some (h', tr) := hrun
            injection heq with e
            injection e with e1 e2
            subst e1
            subst e2
            rfl
          · rw [if_neg c5] at hrun
            rw [if_neg c5]
            have heq : some (h1, ([] : List Dispatch)) = some (h', tr) := hrun
            injection heq with e
            injection e with e1 e2
            subst e1
            subst e2
            rfl

/-- The spatial expander's dispatch count is the sum of the per-function
counts. -/
theorem run_sim_for_spacial_func_len (d : Doc) (key : String) (gm : List ℚ)
    (files : List String) :
    ∀ (fs : List String) (h h' : Heap) (tr : List Dispatch),
      run_sim_for_spacial_func d key gm files fs h = some (h', tr) →
      tr.length = (fs.map (expCount gm files)).sum := by
  intro fs
  induction fs with
  | nil =>
    intro h h' tr hrun
    have heq : some (h, ([] : List Dispatch)) = some (h', tr) := hrun
    injection heq with e
    injection e with e1 e2
    subst e1
    subst e2
    rfl
  | cons func rest ih =>
    intro h h' tr hrun
    simp only [run_sim_for_spacial_func] at hrun
    obtain ⟨⟨h1, tr1⟩, hstep, hrun⟩ := optBind_eq_some hrun
    obtain ⟨⟨h2, tr2⟩, hrec, hrun⟩ := optBind_eq_some hrun
    have heq : some (h2, tr1 ++ tr2) = some (h', tr) := hrun
    injection heq with e
    injection e with e1 e2
    subst e1
    subst e2
    simp [spacialStep_len d key gm files func h h1 tr1 hstep, ih h1 h2 tr2 hrec]

/-- Summing the per-function dispatch counts over the configured spatial
function list. -/
theorem spacial_functions_sum (gm : List ℚ) (files : List String) :
    (spacial_functions.map (expCount gm files)).sum =
      3 * gm.length + gm.length +
        (files.filter (fun f => strEndsWith f ".png")).length + 1 := by
  simp only [spacial_functions, List.map_cons, List.map_nil, List.sum_cons,
    List.sum_nil]
  rw [show expCount gm files "gradient_x" = gm.length from rfl,
      show expCount gm files "gradient_y" = gm.length from rfl,
      show expCount gm files "gradient_r" = gm.length from rfl,
      show expCount gm files "None" = 0 from rfl,
      show expCount gm files "f_sweep" = gm.length from rfl,
      show expCount gm files "gradient_bitmap" =
        (files.filter (fun f => strEndsWith f ".png")).length from rfl,
      show expCount gm files "single_cell" = 1 from rfl,
      show expCount gm files "periodic" = 0 from rfl]
  omega

/-- One `run_sim` coroutine of the `apply pressure` sweep dispatches the
full spatial expansion. -/
theorem runSimApply_pressure_len (base : Doc) (L m : ℚ) (gm : List ℚ)
    (files : List String) (h h' : Heap) (tr : List Dispatch)
    (hrun : runSimApply base "apply pressure" L m gm files h = some (h', tr)) :
    tr.length = (spacial_functions.map (expCount gm files)).sum := by
  unfold runSimApply at hrun
  obtain ⟨sc, hseb, hrun⟩ := optBind_eq_some hrun
  rw [if_neg (by decide), if_pos rfl] at hrun
  obtain ⟨a, ha, hrun⟩ := optBind_eq_some hrun
  obtain ⟨h2, hm2, hrun⟩ := optBind_eq_some hrun
  exact run_sim_for_spacial_func_len sc.2 "apply pressure" gm files
    spacial_functions h2 h' tr hrun

/-- The whole `apply pressure` sweep dispatches one spatial expansion per
primary multiplier. -/
theorem handle_apply_pressure_len (base : Doc) (L : ℚ) (gm : List ℚ)
    (files : List String) :
    ∀ (ms : List ℚ) (h h' : Heap) (tr : List Dispatch),
      handle_apply base "apply pressure" L gm files ms h = some (h', tr) →
      tr.length = ms.length * (spacial_functions.map (expCount gm files)).sum := by
  intro ms
  induction ms with
  | nil =>
    intro h h' tr hrun
    have heq : some (h, ([] : List Dispatch)) = some (h', tr) := hrun
    injection heq with e
    injection e with e1 e2
    subst e1
    subst e2
    simp
  | cons m rest ih =>
    intro h h' tr hrun
    simp only [handle_apply] at hrun
    obtain ⟨⟨h1, tr1⟩, hone, hrun⟩ := optBind_eq_some hrun
    obtain ⟨⟨h2, tr2⟩, hrec, hrun⟩ := optBind_eq_some hrun
    have heq : some (h2, tr1 ++ tr2) = some (h', tr) := hrun
    injection heq with e
    injection e with e1 e2
    subst e1
    subst e2
    rw [List.length_append,
        runSimApply_pressure_len base L m gm files h h1 tr1 hone,
        ih h1 h2 tr2 hrec, List.length_cons]
    ring

/-- C5 (amended): for an `apply pressure` sweep over `P = ms.length`
primary multipliers, a secondary set of size `S = gm.length` and `A`
discovered `.png` assets, the total dispatched variation count equals
`P * (3*S + S + A + 1)` — the three gradient functions and `f_sweep` each
contribute `S` runs (periodic contributes none), the bitmap function `A`
runs and `single_cell` one run. -/
theorem C5_cardinality_total (base : Doc) (L : ℚ) (gm : List ℚ)
    (files : List String) (ms : List ℚ) (h h' : Heap) (tr : List Dispatch)
    (hrun : handle_apply base "apply pressure" L gm files ms h = some (h', tr)) :
    tr.length =
      ms.length * (3 * gm.length + gm.length +
        (files.filter (fun f => strEndsWith f ".png")).length + 1) := by
  rw [handle_apply_pressure_len base L gm files ms h h' tr hrun,
      spacial_functions_sum]

/-- A two-multiplier `apply pressure` sweep over the C5 fixture. -/
def c5Apply : Option (Heap × List Dispatch) :=
  handle_apply c5Doc "apply pressure" len_sim gradient_multipliers c5Files
    [1, 2] c5Heap

/-- Final heap of `c5Apply`. -/
def c5ApplyH : Heap := ((c5Apply.map (fun p => p.1)).getD [])

/-- Dispatch trace of `c5Apply`. -/
def c5ApplyTr : List Dispatch := ((c5Apply.map (fun p => p.2)).getD [])

/-- Witness for the amended C5 at a concrete sweep: `P = 2`, `S = 4`,
`A = 2`, so `2 * (12 + 4 + 2 + 1) = 38` dispatches. -/
theorem C5_cardinality_total_witness :
    c5ApplyTr.length =
      ([1, 2] : List ℚ).length * (3 * gradient_multipliers.length +
        gradient_multipliers.length +
        (c5Files.filter (fun f => strEndsWith f ".png")).length + 1) :=
  C5_cardinality_total c5Doc len_sim gradient_multipliers c5Files [1, 2]
    c5Heap c5ApplyH c5ApplyTr (by decide)

/-- Claim C10: a successful `set_event_base(content, key, len_sim)` returns
the very document object it was given (in-place mutation, not a copy),
changes no heap section other than the one `content[key]` references, and
within that section changes only the four event-window leaves, which it
sets to the policy values. -/
theorem C10_set_event_base_frame (h h' : Heap) (d d' : Doc) (key : String)
    (L : ℚ) (a : Nat) (ha : docGet d key = some a)
    (hrun : set_event_base h d key L = some (h', d')) :
    d' = d ∧
    (∀ b, b ≠ a → heapGet h' b = heapGet h b) ∧
    (∃ s s', heapGet h a = some s ∧ heapGet h' a = some s' ∧
      (∀ n, n ∉ eventNames → secGet s' n = secGet s n) ∧ EventOK s' L) := by
  unfold set_event_base at hrun
  rw [ha, optSomeBind] at hrun
  obtain ⟨h1, hw1, hrun⟩ := optBind_eq_some hrun
  obtain ⟨h2, hw2, hrun⟩ := optBind_eq_some hrun
  obtain ⟨h3, hw3, hrun⟩ := optBind_eq_some hrun
  obtain ⟨h4, hw4, hrun⟩ := optBind_eq_some hrun
  have heq : some (h4, d) = some (h', d') := hrun
  injection heq with e
  injection e with e1 e2
  subst e1
  subst e2
  obtain ⟨s0, hg0, rfl⟩ := writeLeaf_eq _ _ _ _ _ hw1
  obtain ⟨s1, hg1, rfl⟩ := writeLeaf_eq _ _ _ _ _ hw2
  obtain ⟨s2, hg2, rfl⟩ := writeLeaf_eq _ _ _ _ _ hw3
  obtain ⟨s3, hg3, rfl⟩ := writeLeaf_eq _ _ _ _ _ hw4
  have hA := heapGet_heapSet_self h a s0
    (secSet s0 "event happens" (Node.val (Val.bool true))) hg0
  rw [hA] at hg1
  obtain rfl := Option.some.inj hg1
  have hB := heapGet_heapSet_self _ a _
    (secSet (secSet s0 "event happens" (Node.val (Val.bool true)))
      "change start" (Node.val (Val.num 0))) hA
  rw [hB] at hg2
  obtain rfl := Option.some.inj hg2
  have hC := heapGet_heapSet_self _ a _
    (secSet (secSet (secSet s0 "event happens" (Node.val (Val.bool true)))
      "change start" (Node.val (Val.num 0)))
      "change finish" (Node.val (Val.num L))) hB
  rw [hC] at hg3
  obtain rfl := Option.some.inj hg3
  have hD := heapGet_heapSet_self _ a _
    (secSet (secSet (secSet (secSet s0 "event happens" (Node.val (Val.bool true)))
      "change start" (Node.val (Val.num 0)))
      "change finish" (Node.val (Val.num L)))
      "change rate" (Node.val (Val.num (ratDiv L 10)))) hC
  refine ⟨rfl, ?_, s0, _, hg0, hD, ?_, eventOK_nested s0 L⟩
  · intro b hb
    rw [heapGet_heapSet_ne _ _ _ _ hb, heapGet_heapSet_ne _ _ _ _ hb,
        heapGet_heapSet_ne _ _ _ _ hb, heapGet_heapSet_ne _ _ _ _ hb]
  · intro n hn
    simp only [eventNames, List.mem_cons, List.not_mem_nil, or_false,
      not_or] at hn
    obtain ⟨n1, n2, n3, n4⟩ := hn
    rw [secGet_secSet_ne _ _ _ _ n4, secGet_secSet_ne _ _ _ _ n3,
        secGet_secSet_ne _ _ _ _ n2, secGet_secSet_ne _ _ _ _ n1]

/-- A baseline with two sections for the C10 witness. -/
def c10Doc : Doc := [("change K env", 0), ("other section", 1)]

/-- Heap of `c10Doc`. -/
def c10Heap : Heap :=
  [[("multiplier", Node.val (Val.num 3))], [("x", Node.val (Val.num 5))]]

/-- The result of `set_event_base` on the C10 fixture. -/
def c10Res : Option (Heap × Doc) :=
  set_event_base c10Heap c10Doc "change K env" 100

/-- Final heap of `c10Res`. -/
def c10ResH : Heap := ((c10Res.map (fun p => p.1)).getD [])

/-- Returned document of `c10Res`. -/
def c10ResD : Doc := ((c10Res.map (fun p => p.2)).getD [])

/-- Witness for C10 at a concrete document: the returned document is the
one given, the sibling section is untouched, and only the event leaves of
the target section changed. -/
theorem C10_set_event_base_frame_witness :
    c10ResD = c10Doc ∧
    (∀ b, b ≠ 0 → heapGet c10ResH b = heapGet c10Heap b) ∧
    (∃ s s', heapGet c10Heap 0 = some s ∧ heapGet c10ResH 0 = some s' ∧
      (∀ n, n ∉ eventNames → secGet s' n = secGet s n) ∧ EventOK s' 100) :=
  C10_set_event_base_frame c10Heap c10ResH c10Doc c10ResD "change K env" 100 0
    (by decide) (by decide)

/-- A string that is not a length-2 sequence fails tuple unpacking. -/
theorem unpack2_err (s : String) (hs : ¬ s.length = 2) :
    ∃ m, unpack2 s = Except.error (PyError.valueError m) := by
  unfold unpack2
  cases hl : s.data with
  | nil => exact ⟨"cannot unpack", rfl⟩
  | cons a tl =>
    cases tl with
    | nil => exact ⟨"cannot unpack", rfl⟩
    | cons b tl2 =>
      cases tl2 with
      | nil =>
        exact absurd (by simp [String.length, hl]) hs
      | cons c tl3 => exact ⟨"cannot unpack", rfl⟩

/-- The `general options` loop raises on its first key when that key is
not a length-2 sequence, producing no sweep event. -/
theorem post_general_loop_err (d : Doc) (s : String) (rest : List String)
    (hs : ¬ s.length = 2) :
    ∃ m, post_general_loop d (s :: rest) =
      ([], some (PyError.valueError m)) := by
  obtain ⟨m, hm⟩ := unpack2_err s hs
  refine ⟨m, ?_⟩
  unfold post_general_loop
  rw [hm]

/-- Claim C9: for a baseline whose `general options` section is a nonempty
mapping none of whose keys is a length-2 sequence, `post` raises a
tuple-unpacking `ValueError` in its first loop, before generating or
dispatching any sweep: the event trace is empty and the recorded error is
an unpacking `ValueError`. -/
theorem C9_unpack_error_before_dispatch (h : Heap) (d : Doc) (a : Nat)
    (gsec : Sec) (ha : docGet d "general options" = some a)
    (hg : heapGet h a = some gsec) (hne : gsec ≠ [])
    (hlen : ∀ p ∈ gsec, ¬ (p.1 : String).length = 2) :
    (post h d).1 = [] ∧ isUnpackError (post h d).2 = true := by
  cases gsec with
  | nil => exact absurd rfl hne
  | cons p grest =>
    obtain ⟨m, hm⟩ := post_general_loop_err d p.1 (grest.map (fun q => q.1))
      (hlen p (List.mem_cons_self p grest))
    simp only [post, ha, hg, List.map_cons, hm]
    simp [isUnpackError]

/-- A baseline for the C9 witness: its `general options` keys are ordinary
section names, none of length 2. -/
def c9Doc : Doc := [("general options", 0), ("world options", 1)]

/-- Heap of `c9Doc`. -/
def c9Heap : Heap :=
  [[("comp grid size", Node.val (Val.num 10)),
    ("ion profile", Node.val (Val.str "basic"))], []]

/-- Witness for C9 at a concrete baseline: `post` records an unpacking
`ValueError` and generates no sweep. -/
theorem C9_unpack_error_before_dispatch_witness :
    (post c9Heap c9Doc).1 = [] ∧ isUnpackError (post c9Heap c9Doc).2 = true :=
  C9_unpack_error_before_dispatch c9Heap c9Doc 0
    [("comp grid size", Node.val (Val.num 10)),
     ("ion profile", Node.val (Val.str "basic"))]
    (by decide) (by decide) (by decide) (by decide)
